import Mathlib

/-!
Verification of the Qualytics code-metrics engine.

The source under verification is the metrics module (`calculateMetrics`,
`countLogicalLinesOfCode`, `calculateCyclomaticComplexity`,
`calculateHalsteadMetrics`, `calculateMaintainabilityIndex`,
`analyzeClassStructure`, `analyzeFunctionStructure`) together with the
AST utilities (`traverseAST`, `isASTNode`, `isExecutableNode`).

Modelling choices:
* A syntax node is a tagged record: a `NodeKind` carrying exactly the
  kind-specific data the calculators read (`node.operator`, `node.name`,
  `String(node.value)`, whether `node.test` is null, whether a callee /
  member property / superclass is a plain identifier, the class id), plus
  an ordered list of field values, as JS field enumeration presents them.
* A field value is a single child node, an array of items (each an AST
  node or not), or a primitive (string / number / null / metadata), which
  `traverseAST` skips: `isASTNode` holds exactly of structured records
  carrying a `type` tag, i.e. of the `node` cases below.
* JS numbers are modelled as `ℕ` for the integer counters (which the code
  only ever increments from 0) and `ℝ` for the Halstead / maintainability
  arithmetic.  Every real number is finite, which matches the code's
  sanitisation: each `isFinite(x) ? x : 0` guard is the identity in this
  model.
* The JS `Set` is modelled as a `Finset String` (only `add` and `size`
  are used), the JS `Map` as an association list with in-place update
  (only `get`, `set` and `values` are used).
* Parsing is performed by the external `@typescript-eslint` library; the
  orchestrator's `try { parse } catch` is modelled by passing the parse
  outcome as an `Except String SyntaxNode`.  The `console.error`
  diagnostics channel is modelled as the list of messages emitted.
-/

/-- The node kinds (`AST_NODE_TYPES`) the metrics module inspects, each
carrying the kind-specific data the calculators read; every other node
kind is `other`. -/
inductive NodeKind : Type where
  | Program
  | IfStatement
  | ForStatement
  | ForInStatement
  | ForOfStatement
  | WhileStatement
  | DoWhileStatement
  | CatchClause
  | ConditionalExpression
  | SwitchStatement
  /-- `testNonNull` records whether `node.test !== null`
  (a `default` clause has a null test). -/
  | SwitchCase (testNonNull : Bool)
  | LogicalExpression (op : String)
  | TryStatement
  | ThrowStatement
  | BinaryExpression (op : String)
  | AssignmentExpression (op : String)
  | UpdateExpression (op : String)
  | UnaryExpression (op : String)
  | Identifier (name : String)
  /-- `value` is the literal's JS value already coerced by `String(...)`. -/
  | Literal (value : String)
  /-- `callee` is `some name` when `node.callee` is a plain `Identifier`. -/
  | CallExpression (callee : Option String)
  /-- `prop` is `some name` when `node.property` is a plain `Identifier`. -/
  | MemberExpression (prop : Option String)
  | NewExpression
  | ExpressionStatement
  | VariableDeclaration
  | ReturnStatement
  | BreakStatement
  | ContinueStatement
  | AwaitExpression
  | YieldExpression
  | FunctionDeclaration
  | FunctionExpression
  | ArrowFunctionExpression
  | MethodDefinition
  /-- `id` is `some name` when the class has a name; `superClass` is
  `none` when absent, `some none` when present but not a plain
  identifier, `some (some s)` when it is the identifier `s`. -/
  | ClassDeclaration (id : Option String) (superClass : Option (Option String))
  | other (tag : String)
deriving DecidableEq, Repr

mutual
/-- A syntax node: a kind tag plus its fields in declaration order,
as enumerated by `for (const key in node)`. -/
inductive SyntaxNode : Type where
  | mk (kind : NodeKind) (fields : FieldList)
deriving DecidableEq, Repr

/-- The ordered fields of a node. -/
inductive FieldList : Type where
  | nil
  | cons (f : FieldValue) (rest : FieldList)
deriving DecidableEq, Repr

/-- One field value: a child node, a JS array, or a primitive
(string, number, null, location metadata, ...) for which `isASTNode`
is false. -/
inductive FieldValue : Type where
  | child (n : SyntaxNode)
  | arr (items : ItemList)
  | prim
deriving DecidableEq, Repr

/-- The ordered items of an array-valued field. -/
inductive ItemList : Type where
  | nil
  | cons (i : ArrayItem) (rest : ItemList)
deriving DecidableEq, Repr

/-- One array item: an AST node, or any value for which `isASTNode`
is false. -/
inductive ArrayItem : Type where
  | node (n : SyntaxNode)
  | nonNode
deriving DecidableEq, Repr
end

/-- The kind tag of a node (`node.type`). -/
def SyntaxNode.kind : SyntaxNode → NodeKind
  | .mk k _ => k

/-- The fields of a node. -/
def SyntaxNode.fields : SyntaxNode → FieldList
  | .mk _ fs => fs

/-- One traversal event of `traverseAST`: the `enter` callback fires
pre-order, the `leave` callback post-order. -/
inductive Event : Type where
  | enter (n : SyntaxNode)
  | leave (n : SyntaxNode)
deriving DecidableEq, Repr

mutual
/-- `traverseAST node enter leave`: calls `enter(node)`, recurses into
every field value that is an AST node (descending into arrays item by
item, skipping items and field values that are not AST nodes), then
calls `leave(node)`.  Modelled as the trace of callback events. -/
def traverseAST : SyntaxNode → List Event
  | .mk k fs => .enter (.mk k fs) :: (traverseFields fs ++ [.leave (.mk k fs)])

/-- Events contributed by a node's fields, in field order. -/
def traverseFields : FieldList → List Event
  | .nil => []
  | .cons f rest => traverseField f ++ traverseFields rest

/-- Events contributed by one field value: recursion for a child node,
item-wise filtered recursion for an array, nothing for a primitive. -/
def traverseField : FieldValue → List Event
  | .child n => traverseAST n
  | .arr items => traverseItems items
  | .prim => []

/-- Events contributed by an array's items, in order. -/
def traverseItems : ItemList → List Event
  | .nil => []
  | .cons i rest => traverseItem i ++ traverseItems rest

/-- Events contributed by one array item: recursion when `isASTNode`
holds of it, nothing otherwise. -/
def traverseItem : ArrayItem → List Event
  | .node n => traverseAST n
  | .nonNode => []
end

/-- The sequence of nodes on which the `enter` callback fires, in
firing order.  Every calculator of the metrics module only supplies an
`enter` callback, so folding its per-node action over this list is the
exact accumulation the code performs. -/
def enterList (n : SyntaxNode) : List SyntaxNode :=
  (traverseAST n).filterMap fun e =>
    match e with
    | .enter m => some m
    | .leave _ => none

/-- The sequence of nodes on which the `leave` callback fires, in
firing order. -/
def leaveList (n : SyntaxNode) : List SyntaxNode :=
  (traverseAST n).filterMap fun e =>
    match e with
    | .enter _ => none
    | .leave m => some m

/-! ## Node classifier (`ast-utils.ts`) -/

/-- The type names `isExecutableNode` checks membership in
(`AST_NODE_TYPES` values are the type-name strings). -/
def SyntaxNode.typeName (n : SyntaxNode) : String :=
  match n.kind with
  | .Program => "Program"
  | .IfStatement => "IfStatement"
  | .ForStatement => "ForStatement"
  | .ForInStatement => "ForInStatement"
  | .ForOfStatement => "ForOfStatement"
  | .WhileStatement => "WhileStatement"
  | .DoWhileStatement => "DoWhileStatement"
  | .CatchClause => "CatchClause"
  | .ConditionalExpression => "ConditionalExpression"
  | .SwitchStatement => "SwitchStatement"
  | .SwitchCase _ => "SwitchCase"
  | .LogicalExpression _ => "LogicalExpression"
  | .TryStatement => "TryStatement"
  | .ThrowStatement => "ThrowStatement"
  | .BinaryExpression _ => "BinaryExpression"
  | .AssignmentExpression _ => "AssignmentExpression"
  | .UpdateExpression _ => "UpdateExpression"
  | .UnaryExpression _ => "UnaryExpression"
  | .Identifier _ => "Identifier"
  | .Literal _ => "Literal"
  | .CallExpression _ => "CallExpression"
  | .MemberExpression _ => "MemberExpression"
  | .NewExpression => "NewExpression"
  | .ExpressionStatement => "ExpressionStatement"
  | .VariableDeclaration => "VariableDeclaration"
  | .ReturnStatement => "ReturnStatement"
  | .BreakStatement => "BreakStatement"
  | .ContinueStatement => "ContinueStatement"
  | .AwaitExpression => "AwaitExpression"
  | .YieldExpression => "YieldExpression"
  | .FunctionDeclaration => "FunctionDeclaration"
  | .FunctionExpression => "FunctionExpression"
  | .ArrowFunctionExpression => "ArrowFunctionExpression"
  | .MethodDefinition => "MethodDefinition"
  | .ClassDeclaration _ _ => "ClassDeclaration"
  | .other tag => tag

/-- `isExecutableNode` of `ast-utils.ts`: membership of `node.type` in
the fixed 18-element array. -/
def isExecutableNode (n : SyntaxNode) : Bool :=
  ["ExpressionStatement", "VariableDeclaration", "ReturnStatement",
   "IfStatement", "ForStatement", "ForInStatement", "ForOfStatement",
   "WhileStatement", "DoWhileStatement", "SwitchStatement",
   "ThrowStatement", "TryStatement", "FunctionDeclaration",
   "ClassDeclaration", "BreakStatement", "ContinueStatement",
   "AwaitExpression", "YieldExpression"].contains n.typeName

/-! ## Logical lines of code -/

/-- `countLogicalLinesOfCode`: starts `loc` at 0 and increments it at
every entered node satisfying `isExecutableNode`. -/
def countLogicalLinesOfCode (ast : SyntaxNode) : ℕ :=
  (enterList ast).foldl (fun loc node => if isExecutableNode node then loc + 1 else loc) 0

/-! ## Cyclomatic complexity -/

/-- The per-node action of `calculateCyclomaticComplexity`'s traversal
callback: the `switch (node.type)` statement. -/
def complexityStep (complexity : ℕ) (node : SyntaxNode) : ℕ :=
  match node.kind with
  | .IfStatement | .ForStatement | .ForInStatement | .ForOfStatement
  | .WhileStatement | .DoWhileStatement | .CatchClause
  | .ConditionalExpression => complexity + 1
  | .SwitchCase testNonNull => if testNonNull then complexity + 1 else complexity
  | .LogicalExpression op =>
      if ["&&", "||", "??"].contains op then complexity + 1 else complexity
  | .TryStatement | .ThrowStatement => complexity + 1
  | _ => complexity

/-- `calculateCyclomaticComplexity`: accumulates `complexityStep` over
the traversal, then adds 1 for the default path. -/
def calculateCyclomaticComplexity (ast : SyntaxNode) : ℕ :=
  (enterList ast).foldl complexityStep 0 + 1

/-! ## Halstead volume -/

/-- The accumulation state of `calculateHalsteadMetrics`: the two JS
`Set`s and the two occurrence counters. -/
structure HalsteadState where
  operators : Finset String
  operands : Finset String
  operatorCount : ℕ
  operandCount : ℕ
deriving DecidableEq

/-- The per-node action of `calculateHalsteadMetrics`'s traversal
callback: the `switch (node.type)` statement. -/
def halsteadStep (s : HalsteadState) (node : SyntaxNode) : HalsteadState :=
  match node.kind with
  | .BinaryExpression op | .LogicalExpression op | .AssignmentExpression op
  | .UpdateExpression op | .UnaryExpression op =>
      { s with operators := insert op s.operators,
               operatorCount := s.operatorCount + 1 }
  | .Identifier name =>
      { s with operands := insert name s.operands,
               operandCount := s.operandCount + 1 }
  | .Literal value =>
      { s with operands := insert value s.operands,
               operandCount := s.operandCount + 1 }
  | .CallExpression callee =>
      match callee with
      | some name =>
          { s with operators := insert (name ++ "()") s.operators,
                   operatorCount := s.operatorCount + 1 }
      | none => s
  | .MemberExpression prop =>
      match prop with
      | some name =>
          { s with operands := insert name s.operands,
                   operandCount := s.operandCount + 1 }
      | none => s
  | .ConditionalExpression =>
      { s with operators := insert "?:" s.operators,
               operatorCount := s.operatorCount + 1 }
  | .NewExpression =>
      { s with operators := insert "new" s.operators,
               operatorCount := s.operatorCount + 1 }
  | _ => s

/-- The accumulated state after `calculateHalsteadMetrics`'s traversal:
sets and counters start empty / at 0 and each entered node is processed
by `halsteadStep`. -/
def halsteadFold (ast : SyntaxNode) : HalsteadState :=
  (enterList ast).foldl halsteadStep ⟨∅, ∅, 0, 0⟩

/-- `calculateHalsteadMetrics`: accumulates operator/operand sets and
counts over the traversal, then
`volume = vocabulary > 0 ? length * log2(vocabulary) : 0`. -/
noncomputable def calculateHalsteadMetrics (ast : SyntaxNode) : ℝ :=
  let s := halsteadFold ast
  let n1 := s.operators.card
  let n2 := s.operands.card
  let N1 := s.operatorCount
  let N2 := s.operandCount
  let vocabulary := n1 + n2
  let length := N1 + N2
  if vocabulary > 0 then (length : ℝ) * Real.logb 2 (vocabulary : ℝ) else 0

/-! ## Maintainability index -/

/-- `calculateMaintainabilityIndex`: the normalized maintainability
formula, with `Math.log` applied only to positive arguments and the
result clamped below by 0. -/
noncomputable def calculateMaintainabilityIndex (volume complexity linesOfCode : ℝ) : ℝ :=
  let volumeLog := if volume > 0 then Real.log volume else 0
  let locLog := if linesOfCode > 0 then Real.log linesOfCode else 0
  let mi := 171 - 5.2 * volumeLog - 0.23 * complexity - 16.2 * locLog
  max 0 (mi * 100 / 171)

/-! ## Class structure -/

/-- JS `Map.get`: the value stored at `k`, if any. -/
def mapGet : List (String × ℕ) → String → Option ℕ
  | [], _ => none
  | (k', v') :: rest, k => if k' = k then some v' else mapGet rest k

/-- JS `Map.set`: updates the entry for `k` in place if present
(keeping insertion order), else appends. -/
def mapSet : List (String × ℕ) → String → ℕ → List (String × ℕ)
  | [], k, v => [(k, v)]
  | (k', v') :: rest, k, v =>
      if k' = k then (k, v) :: rest else (k', v') :: mapSet rest k v

/-- The per-node action of `analyzeClassStructure`'s traversal callback:
for a named class declaration, increment `classCount`, compute the
depth from the superclass's previously recorded depth (`|| 1` when
absent) and record it under the class's name. -/
def classStep (s : List (String × ℕ) × ℕ) (node : SyntaxNode) :
    List (String × ℕ) × ℕ :=
  match node.kind with
  | .ClassDeclaration (some name) superClass =>
      let depth : ℕ :=
        match superClass with
        | some (some superClassName) => (mapGet s.1 superClassName).getD 1 + 1
        | _ => 1
      (mapSet s.1 name depth, s.2 + 1)
  | _ => s

/-- `analyzeClassStructure`: builds the inheritance map over the
traversal; `maxInheritanceDepth = Math.max(...map.values(), 0)`. -/
def analyzeClassStructure (ast : SyntaxNode) : ℕ × ℕ :=
  let s := (enterList ast).foldl classStep ([], 0)
  let maxInheritanceDepth := (s.1.map Prod.snd).foldr max 0
  (s.2, maxInheritanceDepth)

/-! ## Function structure -/

/-- The function-like test of `analyzeFunctionStructure`'s callback. -/
def isFunctionLike (node : SyntaxNode) : Bool :=
  match node.kind with
  | .FunctionDeclaration | .FunctionExpression
  | .ArrowFunctionExpression | .MethodDefinition => true
  | _ => false

/-- `analyzeFunctionStructure`: counts function-like nodes over the
traversal. -/
def analyzeFunctionStructure (ast : SyntaxNode) : ℕ :=
  (enterList ast).foldl (fun c node => if isFunctionLike node then c + 1 else c) 0

/-! ## Orchestrator -/

/-- The seven-field record returned per file. -/
structure CodeMetrics where
  linesOfCode : ℕ
  cyclomaticComplexity : ℕ
  maintainabilityIndex : ℝ
  depthOfInheritance : ℕ
  classCount : ℕ
  methodCount : ℕ
  averageMethodComplexity : ℝ

/-- `calculateMetrics`: on parse failure, logs one message and returns
the all-zero record; on success, runs the five calculators, combines
them, and returns the record together with the (empty) diagnostics.
The parse itself is the external `@typescript-eslint` parser, so its
outcome is a parameter; `console.error` output is returned as the list
of emitted messages.  The `isFinite` guards of the source are the
identity here since every value of `ℝ` is finite. -/
noncomputable def calculateMetrics (filePath : String) (parsed : Except String SyntaxNode) :
    CodeMetrics × List String :=
  match parsed with
  | .error msg =>
      (⟨0, 0, 0, 0, 0, 0, 0⟩,
       ["Failed to parse " ++ filePath ++ ": " ++ msg])
  | .ok ast =>
      let linesOfCode := countLogicalLinesOfCode ast
      let cyclomaticComplexity := calculateCyclomaticComplexity ast
      let volume := calculateHalsteadMetrics ast
      let maintainabilityIndex :=
        calculateMaintainabilityIndex volume cyclomaticComplexity linesOfCode
      let classStructure := analyzeClassStructure ast
      let functionCount := analyzeFunctionStructure ast
      let averageMethodComplexity : ℝ :=
        if functionCount > 0 then (cyclomaticComplexity : ℝ) / functionCount else 0
      (⟨linesOfCode, cyclomaticComplexity, maintainabilityIndex,
        classStructure.2, classStructure.1, functionCount,
        averageMethodComplexity⟩, [])

/-! ## Concrete AST builders (for closed test programs) -/

/-- Build a `FieldList` from a list. -/
def fieldsOf : List FieldValue → FieldList
  | [] => .nil
  | f :: fs => .cons f (fieldsOf fs)

/-- Build an `ItemList` from a list. -/
def itemsOf : List ArrayItem → ItemList
  | [] => .nil
  | i :: is => .cons i (itemsOf is)

/-- A `Program` node whose `body` array holds the given statements. -/
def program (stmts : List SyntaxNode) : SyntaxNode :=
  .mk .Program (fieldsOf [.arr (itemsOf (stmts.map .node))])

/-- An identifier node. -/
def ident (name : String) : SyntaxNode :=
  .mk (.Identifier name) .nil

/-- An expression statement `x;`. -/
def exprStmt (name : String) : SyntaxNode :=
  .mk .ExpressionStatement (fieldsOf [.child (ident name)])

/-- An `if (c) x;` statement. -/
def ifStmt (c : String) (body : SyntaxNode) : SyntaxNode :=
  .mk .IfStatement (fieldsOf [.child (ident c), .child body, .prim])

/-- A `case c:` clause (test non-null). -/
def caseClause (c : String) : SyntaxNode :=
  .mk (.SwitchCase true) (fieldsOf [.child (ident c), .arr .nil])

/-- A `default:` clause (test null). -/
def defaultClause : SyntaxNode :=
  .mk (.SwitchCase false) (fieldsOf [.prim, .arr .nil])

/-- A `switch (d) { ... }` statement with the given clauses. -/
def switchStmt (d : String) (clauses : List SyntaxNode) : SyntaxNode :=
  .mk .SwitchStatement
    (fieldsOf [.child (ident d), .arr (itemsOf (clauses.map .node))])

/-! ## Counting lemmas -/

/-- A fold that conditionally increments counts the satisfying
elements. -/
theorem foldl_count_eq_countP (p : SyntaxNode → Bool) (l : List SyntaxNode)
    (c : ℕ) :
    l.foldl (fun acc n => if p n then acc + 1 else acc) c = c + l.countP p := by
  induction l generalizing c with
  | nil => simp
  | cons x xs ih =>
      cases hx : p x
      · simp [List.countP_cons, hx, ih]
      · simp [List.countP_cons, hx, ih]
        ring

/-! ## Decision points (spec side, §4.4 of the spec) -/

/-- Modelled from the spec: a decision point is an `if`, `for`,
`for-in`, `for-of`, `while`, `do-while`, `catch` clause, conditional
(ternary) expression, `try` or `throw` node; a `switch-case` clause
whose test is non-null; or a logical expression whose operator is
`&&`, `||` or `??`. -/
def isDecisionPoint (n : SyntaxNode) : Bool :=
  match n.kind with
  | .IfStatement | .ForStatement | .ForInStatement | .ForOfStatement
  | .WhileStatement | .DoWhileStatement | .CatchClause
  | .ConditionalExpression | .TryStatement | .ThrowStatement => true
  | .SwitchCase testNonNull => testNonNull
  | .LogicalExpression op => op = "&&" ∨ op = "||" ∨ op = "??"
  | _ => false

/-- `complexityStep` adds 1 exactly at decision points. -/
theorem complexityStep_eq (c : ℕ) (n : SyntaxNode) :
    complexityStep c n = c + (if isDecisionPoint n then 1 else 0) := by
  rcases n with ⟨k, fs⟩
  cases k <;> simp [complexityStep, isDecisionPoint, SyntaxNode.kind]
  case SwitchCase t => cases t <;> simp
  case LogicalExpression op => split <;> simp

/-- Folding `complexityStep` counts the decision points. -/
theorem foldl_complexityStep (l : List SyntaxNode) (c : ℕ) :
    l.foldl complexityStep c = c + l.countP isDecisionPoint := by
  induction l generalizing c with
  | nil => simp
  | cons x xs ih => simp [complexityStep_eq, ih, List.countP_cons]; ring

/-- C3: `calculateCyclomaticComplexity` returns 1 plus the number of
decision points encountered in traversal; consequently adding an `if`
statement adds exactly 1, adding a `default` switch clause adds
nothing, and adding a non-default `case` adds 1. -/
theorem cyclomatic_eq_one_add_decision_points :
    (∀ ast : SyntaxNode,
      calculateCyclomaticComplexity ast =
        1 + (enterList ast).countP isDecisionPoint)
    ∧ calculateCyclomaticComplexity
        (program [exprStmt "x", ifStmt "c" (exprStmt "y")])
      = calculateCyclomaticComplexity (program [exprStmt "x"]) + 1
    ∧ calculateCyclomaticComplexity
        (program [switchStmt "d" [caseClause "a", defaultClause]])
      = calculateCyclomaticComplexity (program [switchStmt "d" [caseClause "a"]])
    ∧ calculateCyclomaticComplexity
        (program [switchStmt "d" [caseClause "a", caseClause "b"]])
      = calculateCyclomaticComplexity (program [switchStmt "d" [caseClause "a"]])
        + 1 := by
  refine ⟨fun ast => ?_, by decide, by decide, by decide⟩
  unfold calculateCyclomaticComplexity
  rw [foldl_complexityStep]
  ring

/-- C8: `countLogicalLinesOfCode` returns exactly the number of visited
nodes whose type lies in the 18-element executable set, and membership
in that set is the complete definition of `isExecutableNode`. -/
theorem countLogicalLinesOfCode_eq_executable_count :
    (∀ ast : SyntaxNode,
      countLogicalLinesOfCode ast =
        (enterList ast).countP fun n =>
          n.typeName ∈
            ["ExpressionStatement", "VariableDeclaration", "ReturnStatement",
             "IfStatement", "ForStatement", "ForInStatement", "ForOfStatement",
             "WhileStatement", "DoWhileStatement", "SwitchStatement",
             "ThrowStatement", "TryStatement", "FunctionDeclaration",
             "ClassDeclaration", "BreakStatement", "ContinueStatement",
             "AwaitExpression", "YieldExpression"])
    ∧ ∀ n : SyntaxNode,
        isExecutableNode n = true ↔
          n.typeName ∈
            ["ExpressionStatement", "VariableDeclaration", "ReturnStatement",
             "IfStatement", "ForStatement", "ForInStatement", "ForOfStatement",
             "WhileStatement", "DoWhileStatement", "SwitchStatement",
             "ThrowStatement", "TryStatement", "FunctionDeclaration",
             "ClassDeclaration", "BreakStatement", "ContinueStatement",
             "AwaitExpression", "YieldExpression"] := by
  have hpt : ∀ n : SyntaxNode,
      isExecutableNode n = true ↔
        n.typeName ∈
          ["ExpressionStatement", "VariableDeclaration", "ReturnStatement",
           "IfStatement", "ForStatement", "ForInStatement", "ForOfStatement",
           "WhileStatement", "DoWhileStatement", "SwitchStatement",
           "ThrowStatement", "TryStatement", "FunctionDeclaration",
           "ClassDeclaration", "BreakStatement", "ContinueStatement",
           "AwaitExpression", "YieldExpression"] := by
    intro n
    simp [isExecutableNode]
  refine ⟨fun ast => ?_, hpt⟩
  unfold countLogicalLinesOfCode
  rw [foldl_count_eq_countP]
  simp only [Nat.zero_add]
  apply List.countP_congr
  intro n _
  rw [Bool.eq_iff_iff, hpt, decide_eq_true_eq]
  simp

/-- C2: on parse failure the orchestrator returns the record with all
seven fields 0 and emits exactly one diagnostic; no exception escapes
(the orchestrator is a total function of the parse outcome). -/
theorem parse_failure_zero_record_one_diagnostic (filePath msg : String) :
    (calculateMetrics filePath (.error msg)).1 = ⟨0, 0, 0, 0, 0, 0, 0⟩
    ∧ (calculateMetrics filePath (.error msg)).2.length = 1 :=
  ⟨rfl, rfl⟩

/-! ## Class structure, spec side (§4.7 of the spec) -/

/-- The (name, superclass) data of a named class declaration, `none`
for every other node. -/
def classEntry (n : SyntaxNode) : Option (String × Option (Option String)) :=
  match n.kind with
  | .ClassDeclaration (some name) superClass => some (name, superClass)
  | _ => none

/-- Modelled from the spec: record one named class declaration in the
inheritance map — depth 1 when it has no plain-identifier superclass
reference, otherwise the superclass's previously recorded depth
(defaulting to 1 when absent) plus 1, overwriting any prior entry for
the same class name. -/
def recordClass (m : List (String × ℕ)) (e : String × Option (Option String)) :
    List (String × ℕ) :=
  mapSet m e.1
    (match e.2 with
     | some (some superName) => (mapGet m superName).getD 1 + 1
     | _ => 1)

/-- Folding `classStep` over any node list processes exactly the named
class declarations, in order. -/
theorem foldl_classStep (l : List SyntaxNode) (m : List (String × ℕ)) (c : ℕ) :
    l.foldl classStep (m, c) =
      ((l.filterMap classEntry).foldl recordClass m,
       c + (l.filterMap classEntry).length) := by
  induction l generalizing m c with
  | nil => simp
  | cons x xs ih =>
      rcases x with ⟨k, fs⟩
      cases k with
      | ClassDeclaration id superClass =>
          cases id <;>
            simp [classStep, classEntry, recordClass, SyntaxNode.kind, ih,
              Nat.add_assoc, Nat.add_comm 1]
      | _ => simp [classStep, classEntry, SyntaxNode.kind, ih]

/-- A `ClassBody` node holding the given member definitions. -/
def classBody (methods : List SyntaxNode) : SyntaxNode :=
  .mk (.other "ClassBody") (fieldsOf [.arr (itemsOf (methods.map .node))])

/-- A named class declaration, with its `id` identifier, optional
`superClass` identifier and `body` as child nodes, as the parser
produces them. -/
def classDecl (name : String) (superClass : Option String)
    (methods : List SyntaxNode) : SyntaxNode :=
  .mk (.ClassDeclaration (some name) (superClass.map some))
    (fieldsOf
      ([.child (ident name)]
        ++ (match superClass with
            | some s => [.child (ident s)]
            | none => [.prim])
        ++ [.child (classBody methods)]))

/-- C7: `analyzeClassStructure` processes the named class declarations
in traversal order through the inheritance map (`recordClass`: depth 1
without a plain-identifier superclass, else the superclass's recorded
depth defaulting to 1, plus 1, overwriting same-name entries), returns
their number as `classCount` and the maximum recorded depth (0 with no
classes) as `maxInheritanceDepth`; a declared chain A → B → C → D
yields `maxInheritanceDepth = 4`. -/
theorem analyzeClassStructure_spec :
    (∀ ast : SyntaxNode,
      analyzeClassStructure ast =
        (((enterList ast).filterMap classEntry).length,
         ((((enterList ast).filterMap classEntry).foldl recordClass []).map
             Prod.snd).foldr max 0))
    ∧ analyzeClassStructure
        (program
          [classDecl "A" none [], classDecl "B" (some "A") [],
           classDecl "C" (some "B") [], classDecl "D" (some "C") []])
      = (4, 4) := by
  refine ⟨fun ast => ?_, by decide⟩
  unfold analyzeClassStructure
  rw [foldl_classStep]
  simp

/-! ## Halstead vocabulary, spec side (§4.5 of the spec) -/

/-- Modelled from the spec: the operator tokens one node contributes —
the operator text of a binary / logical / assignment / update / unary
expression, `?:` for a conditional expression, `new` for a new
expression, and the callee name suffixed with `()` for a call whose
callee is a plain identifier. -/
def opTokens (n : SyntaxNode) : List String :=
  match n.kind with
  | .BinaryExpression op | .LogicalExpression op | .AssignmentExpression op
  | .UpdateExpression op | .UnaryExpression op => [op]
  | .ConditionalExpression => ["?:"]
  | .NewExpression => ["new"]
  | .CallExpression (some calleeName) => [calleeName ++ "()"]
  | _ => []

/-- Modelled from the spec: the operand tokens one node contributes —
every identifier name, every literal value coerced to string, and the
property name of a member expression whose property is a plain
identifier. -/
def operandTokens (n : SyntaxNode) : List String :=
  match n.kind with
  | .Identifier name => [name]
  | .Literal value => [value]
  | .MemberExpression (some propName) => [propName]
  | _ => []

/-- Folding `halsteadStep` accumulates exactly the operator/operand
token multiset: the sets are the distinct tokens, the counters the
total occurrences. -/
theorem foldl_halsteadStep (l : List SyntaxNode) (s : HalsteadState) :
    l.foldl halsteadStep s =
      ⟨s.operators ∪ (l.flatMap opTokens).toFinset,
       s.operands ∪ (l.flatMap operandTokens).toFinset,
       s.operatorCount + (l.flatMap opTokens).length,
       s.operandCount + (l.flatMap operandTokens).length⟩ := by
  induction l generalizing s with
  | nil => simp
  | cons x xs ih =>
      rcases x with ⟨k, fs⟩
      cases k with
      | CallExpression callee =>
          cases callee <;>
            simp [halsteadStep, opTokens, operandTokens, SyntaxNode.kind, ih,
              Finset.insert_union, Finset.union_insert, Nat.add_assoc,
              Nat.add_comm 1]
      | MemberExpression prop =>
          cases prop <;>
            simp [halsteadStep, opTokens, operandTokens, SyntaxNode.kind, ih,
              Finset.insert_union, Finset.union_insert, Nat.add_assoc,
              Nat.add_comm 1]
      | _ =>
          simp [halsteadStep, opTokens, operandTokens, SyntaxNode.kind, ih,
            Finset.insert_union, Finset.union_insert, Nat.add_assoc,
            Nat.add_comm 1]

/-- C6: the Halstead volume is `(N1+N2) * log2(n1+n2)` when
`n1+n2 > 0` and 0 otherwise, where `n1`/`n2` are the distinct
operator/operand token counts and `N1`/`N2` the total occurrence
counts accumulated under the stated policy. -/
theorem halstead_volume_formula (ast : SyntaxNode) :
    calculateHalsteadMetrics ast =
      (if 0 < ((enterList ast).flatMap opTokens).toFinset.card
            + ((enterList ast).flatMap operandTokens).toFinset.card
       then (((((enterList ast).flatMap opTokens).length
              + ((enterList ast).flatMap operandTokens).length : ℕ)) : ℝ)
            * Real.logb 2
              ((((enterList ast).flatMap opTokens).toFinset.card
                + ((enterList ast).flatMap operandTokens).toFinset.card : ℕ) : ℝ)
       else 0) := by
  unfold calculateHalsteadMetrics halsteadFold
  rw [foldl_halsteadStep]
  simp

/-- The volume the Halstead calculator produces is either 0 or at
least 2: every distinct token is counted at least once, so the length
is at least the vocabulary, and a vocabulary of 1 yields
`log2(1) = 0`. -/
theorem halstead_volume_dichotomy (ast : SyntaxNode) :
    calculateHalsteadMetrics ast = 0 ∨ 2 ≤ calculateHalsteadMetrics ast := by
  rw [halstead_volume_formula]
  set c1 := ((enterList ast).flatMap opTokens).toFinset.card with hc1
  set c2 := ((enterList ast).flatMap operandTokens).toFinset.card with hc2
  set l1 := ((enterList ast).flatMap opTokens).length with hl1
  set l2 := ((enterList ast).flatMap operandTokens).length with hl2
  have h1 : c1 ≤ l1 := List.toFinset_card_le _
  have h2 : c2 ≤ l2 := List.toFinset_card_le _
  rcases Nat.lt_or_ge (c1 + c2) 1 with h | h
  · left
    rw [if_neg (by omega)]
  · rcases Nat.lt_or_ge (c1 + c2) 2 with hlt | hge
    · have hone : c1 + c2 = 1 := by omega
      left
      rw [if_pos (by omega), hone]
      simp
    · right
      rw [if_pos (by omega)]
      have hlen : (2 : ℝ) ≤ ((l1 + l2 : ℕ) : ℝ) := by
        exact_mod_cast le_trans hge (Nat.add_le_add h1 h2)
      have hlog : (1 : ℝ) ≤ Real.logb 2 ((c1 + c2 : ℕ) : ℝ) := by
        have hmono : Real.logb 2 2 ≤ Real.logb 2 ((c1 + c2 : ℕ) : ℝ) :=
          Real.logb_le_logb_of_le one_lt_two two_pos (by exact_mod_cast hge)
        rwa [Real.logb_self_eq_one one_lt_two] at hmono
      nlinarith

/-- The maintainability index never exceeds 100 once the volume is 0
or at least 1, the complexity at least 1 and the line count a natural
number: each log term is then nonnegative. -/
theorem maintainability_le_100 (v c : ℝ) (l : ℕ)
    (hv : v = 0 ∨ 1 ≤ v) (hc : 1 ≤ c) :
    calculateMaintainabilityIndex v c l ≤ 100 := by
  unfold calculateMaintainabilityIndex
  have hvlog : 0 ≤ if v > 0 then Real.log v else 0 := by
    rcases hv with hv | hv
    · simp [hv]
    · rw [if_pos (by linarith)]
      exact Real.log_nonneg hv
  have hllog : 0 ≤ if (l : ℝ) > 0 then Real.log l else 0 := by
    rcases Nat.eq_zero_or_pos l with hl | hl
    · simp [hl]
    · rw [if_pos (by exact_mod_cast hl)]
      exact Real.log_nonneg (by exact_mod_cast hl)
  apply max_le (by norm_num)
  rw [div_le_iff₀ (by norm_num : (0 : ℝ) < 171)]
  nlinarith

/-- The maintainability index is clamped below by 0. -/
theorem maintainability_nonneg (v c l : ℝ) :
    0 ≤ calculateMaintainabilityIndex v c l :=
  le_max_left 0 _

/-- C4: `calculateMaintainabilityIndex` equals
`max(0, (171 − 5.2·L(volume) − 0.23·complexity − 16.2·L(loc)) · 100 / 171)`
with `L x = ln x` for positive `x` and 0 otherwise; and for volumes
arising from the Halstead calculator, complexity ≥ 1 and a natural
line count, the result never exceeds 100. -/
theorem maintainability_formula_and_clamp :
    (∀ volume complexity linesOfCode : ℝ,
      calculateMaintainabilityIndex volume complexity linesOfCode =
        max 0 ((171 - 5.2 * (if volume > 0 then Real.log volume else 0)
                - 0.23 * complexity
                - 16.2 * (if linesOfCode > 0 then Real.log linesOfCode else 0))
               * 100 / 171))
    ∧ ∀ (ast : SyntaxNode) (complexity : ℝ) (linesOfCode : ℕ),
        1 ≤ complexity →
        calculateMaintainabilityIndex (calculateHalsteadMetrics ast) complexity
          linesOfCode ≤ 100 := by
  constructor
  · intro v c l
    rfl
  · intro ast c l hc
    refine maintainability_le_100 _ c l ?_ hc
    rcases halstead_volume_dichotomy ast with h | h
    · exact Or.inl h
    · exact Or.inr (by linarith)

/-- Witness for C4: the clamp holds at the empty program with
complexity 1 and 0 lines of code. -/
theorem maintainability_formula_and_clamp_witness :
    (1 : ℝ) ≤ 1 ∧
    calculateMaintainabilityIndex (calculateHalsteadMetrics (program [])) 1
      ((0 : ℕ) : ℝ) ≤ 100 :=
  ⟨le_refl 1,
   maintainability_formula_and_clamp.2 (program []) 1 0 (le_refl 1)⟩

/-- C1: for every successfully parsed program, every returned field is
within its documented range: the integer counters are naturals (hence
≥ 0 and finite), the complexity is ≥ 1, the maintainability index lies
in [0, 100] and the average method complexity is ≥ 0.  Non-finite
values cannot arise in this real-valued model, matching the
`isFinite` sanitisation. -/
theorem metrics_fields_in_range (filePath : String) (ast : SyntaxNode) :
    1 ≤ ((calculateMetrics filePath (.ok ast)).1).cyclomaticComplexity
    ∧ 0 ≤ ((calculateMetrics filePath (.ok ast)).1).maintainabilityIndex
    ∧ ((calculateMetrics filePath (.ok ast)).1).maintainabilityIndex ≤ 100
    ∧ 0 ≤ ((calculateMetrics filePath (.ok ast)).1).averageMethodComplexity
    ∧ 0 ≤ ((calculateMetrics filePath (.ok ast)).1).linesOfCode
    ∧ 0 ≤ ((calculateMetrics filePath (.ok ast)).1).depthOfInheritance
    ∧ 0 ≤ ((calculateMetrics filePath (.ok ast)).1).classCount
    ∧ 0 ≤ ((calculateMetrics filePath (.ok ast)).1).methodCount := by
  have hcc : 1 ≤ calculateCyclomaticComplexity ast := Nat.le_add_left 1 _
  refine ⟨hcc, maintainability_nonneg _ _ _, ?_, ?_, Nat.zero_le _,
    Nat.zero_le _, Nat.zero_le _, Nat.zero_le _⟩
  · refine maintainability_le_100 _ _ _ ?_ ?_
    · rcases halstead_volume_dichotomy ast with h | h
      · exact Or.inl h
      · exact Or.inr (by linarith)
    · exact_mod_cast hcc
  · show (0 : ℝ) ≤ if 0 < analyzeFunctionStructure ast then
      (calculateCyclomaticComplexity ast : ℝ) / (analyzeFunctionStructure ast : ℝ)
      else 0
    split
    · positivity
    · exact le_refl 0

/-- C5 counterexample: analyzing the empty module does not yield a
maintainability index of 100 — the complexity term `0.23 · 1` is also
subtracted, giving `(171 − 0.23) · 100 / 171 = 17077/171 < 100`. -/
theorem empty_module_mi_ne_100 :
    ((calculateMetrics "empty.ts" (.ok (program []))).1).maintainabilityIndex
      ≠ 100 := by
  have hv : calculateHalsteadMetrics (program []) = 0 := by
    rw [halstead_volume_formula]
    have he : enterList (program []) = [program []] := rfl
    rw [he]
    norm_num [opTokens, operandTokens, program, SyntaxNode.kind]
  show calculateMaintainabilityIndex (calculateHalsteadMetrics (program []))
      ((calculateCyclomaticComplexity (program []) : ℕ) : ℝ)
      ((countLogicalLinesOfCode (program []) : ℕ) : ℝ) ≠ 100
  rw [hv]
  have hc : calculateCyclomaticComplexity (program []) = 1 := rfl
  have hl : countLogicalLinesOfCode (program []) = 0 := rfl
  rw [hc, hl]
  unfold calculateMaintainabilityIndex
  norm_num

/-- C5 amended: the empty module yields `linesOfCode = 0`,
`cyclomaticComplexity = 1`, `classCount = 0`, `methodCount = 0` and
`maintainabilityIndex = 17077/171` (≈ 99.87, not 100). -/
theorem empty_module_metrics :
    ((calculateMetrics "empty.ts" (.ok (program []))).1).linesOfCode = 0
    ∧ ((calculateMetrics "empty.ts" (.ok (program []))).1).cyclomaticComplexity
        = 1
    ∧ ((calculateMetrics "empty.ts" (.ok (program []))).1).classCount = 0
    ∧ ((calculateMetrics "empty.ts" (.ok (program []))).1).methodCount = 0
    ∧ ((calculateMetrics "empty.ts" (.ok (program []))).1).maintainabilityIndex
        = 17077 / 171 := by
  refine ⟨rfl, rfl, rfl, rfl, ?_⟩
  have hv : calculateHalsteadMetrics (program []) = 0 := by
    rw [halstead_volume_formula]
    have he : enterList (program []) = [program []] := rfl
    rw [he]
    norm_num [opTokens, operandTokens, program, SyntaxNode.kind]
  show calculateMaintainabilityIndex (calculateHalsteadMetrics (program []))
      ((calculateCyclomaticComplexity (program []) : ℕ) : ℝ)
      ((countLogicalLinesOfCode (program []) : ℕ) : ℝ) = 17077 / 171
  rw [hv]
  have hc : calculateCyclomaticComplexity (program []) = 1 := rfl
  have hl : countLogicalLinesOfCode (program []) = 0 := rfl
  rw [hc, hl]
  unfold calculateMaintainabilityIndex
  norm_num

/-! ## The walker contract, spec side (§4.1 of the spec) -/

mutual
/-- Modelled from the spec: the depth-first pre-order node sequence —
the root, then the nodes of every field in declaration order. -/
def preorderSpec : SyntaxNode → List SyntaxNode
  | .mk k fs => .mk k fs :: preorderSpecFields fs

/-- Pre-order nodes contributed by a field list, in order. -/
def preorderSpecFields : FieldList → List SyntaxNode
  | .nil => []
  | .cons f rest => preorderSpecField f ++ preorderSpecFields rest

/-- Pre-order nodes contributed by one field value. -/
def preorderSpecField : FieldValue → List SyntaxNode
  | .child n => preorderSpec n
  | .arr items => preorderSpecItems items
  | .prim => []

/-- Pre-order nodes contributed by an array, in order. -/
def preorderSpecItems : ItemList → List SyntaxNode
  | .nil => []
  | .cons i rest => preorderSpecItem i ++ preorderSpecItems rest

/-- Pre-order nodes contributed by one array item. -/
def preorderSpecItem : ArrayItem → List SyntaxNode
  | .node n => preorderSpec n
  | .nonNode => []
end

mutual
/-- Modelled from the spec: the depth-first post-order node sequence —
the nodes of every field in declaration order, then the root. -/
def postorderSpec : SyntaxNode → List SyntaxNode
  | .mk k fs => postorderSpecFields fs ++ [.mk k fs]

/-- Post-order nodes contributed by a field list, in order. -/
def postorderSpecFields : FieldList → List SyntaxNode
  | .nil => []
  | .cons f rest => postorderSpecField f ++ postorderSpecFields rest

/-- Post-order nodes contributed by one field value. -/
def postorderSpecField : FieldValue → List SyntaxNode
  | .child n => postorderSpec n
  | .arr items => postorderSpecItems items
  | .prim => []

/-- Post-order nodes contributed by an array, in order. -/
def postorderSpecItems : ItemList → List SyntaxNode
  | .nil => []
  | .cons i rest => postorderSpecItem i ++ postorderSpecItems rest

/-- Post-order nodes contributed by one array item. -/
def postorderSpecItem : ArrayItem → List SyntaxNode
  | .node n => postorderSpec n
  | .nonNode => []
end

mutual
/-- The number of AST nodes in a tree (each node counted once). -/
def sizeSpec : SyntaxNode → ℕ
  | .mk _ fs => 1 + sizeSpecFields fs

/-- The number of AST nodes under a field list. -/
def sizeSpecFields : FieldList → ℕ
  | .nil => 0
  | .cons f rest => sizeSpecField f + sizeSpecFields rest

/-- The number of AST nodes under one field value. -/
def sizeSpecField : FieldValue → ℕ
  | .child n => sizeSpec n
  | .arr items => sizeSpecItems items
  | .prim => 0

/-- The number of AST nodes under an array. -/
def sizeSpecItems : ItemList → ℕ
  | .nil => 0
  | .cons i rest => sizeSpecItem i + sizeSpecItems rest

/-- The number of AST nodes under one array item. -/
def sizeSpecItem : ArrayItem → ℕ
  | .node n => sizeSpec n
  | .nonNode => 0
end

/-- The enter events of an event list, in order. -/
def entersOf (es : List Event) : List SyntaxNode :=
  es.filterMap fun e =>
    match e with
    | .enter m => some m
    | .leave _ => none

/-- The leave events of an event list, in order. -/
def leavesOf (es : List Event) : List SyntaxNode :=
  es.filterMap fun e =>
    match e with
    | .enter _ => none
    | .leave m => some m

/-- `entersOf` distributes over concatenation. -/
theorem entersOf_append (a b : List Event) :
    entersOf (a ++ b) = entersOf a ++ entersOf b := by
  simp [entersOf]

/-- `leavesOf` distributes over concatenation. -/
theorem leavesOf_append (a b : List Event) :
    leavesOf (a ++ b) = leavesOf a ++ leavesOf b := by
  simp [leavesOf]

mutual
/-- The enter trace of `traverseAST` is the pre-order sequence. -/
theorem enters_traverseAST (n : SyntaxNode) :
    entersOf (traverseAST n) = preorderSpec n := by
  rcases n with ⟨k, fs⟩
  rw [traverseAST, preorderSpec, ← enters_traverseFields fs]
  simp [entersOf]

/-- Enter trace of a field list. -/
theorem enters_traverseFields (fs : FieldList) :
    entersOf (traverseFields fs) = preorderSpecFields fs := by
  cases fs with
  | nil => rfl
  | cons f rest =>
      rw [traverseFields, preorderSpecFields, entersOf_append,
        enters_traverseField f, enters_traverseFields rest]

/-- Enter trace of one field value. -/
theorem enters_traverseField (f : FieldValue) :
    entersOf (traverseField f) = preorderSpecField f := by
  cases f with
  | child n => rw [traverseField, preorderSpecField, enters_traverseAST n]
  | arr items => rw [traverseField, preorderSpecField, enters_traverseItems items]
  | prim => rfl

/-- Enter trace of an array. -/
theorem enters_traverseItems (items : ItemList) :
    entersOf (traverseItems items) = preorderSpecItems items := by
  cases items with
  | nil => rfl
  | cons i rest =>
      rw [traverseItems, preorderSpecItems, entersOf_append,
        enters_traverseItem i, enters_traverseItems rest]

/-- Enter trace of one array item. -/
theorem enters_traverseItem (i : ArrayItem) :
    entersOf (traverseItem i) = preorderSpecItem i := by
  cases i with
  | node n => rw [traverseItem, preorderSpecItem, enters_traverseAST n]
  | nonNode => rfl
end

mutual
/-- The leave trace of `traverseAST` is the post-order sequence. -/
theorem leaves_traverseAST (n : SyntaxNode) :
    leavesOf (traverseAST n) = postorderSpec n := by
  rcases n with ⟨k, fs⟩
  rw [traverseAST, postorderSpec, ← leaves_traverseFields fs]
  simp [leavesOf]

/-- Leave trace of a field list. -/
theorem leaves_traverseFields (fs : FieldList) :
    leavesOf (traverseFields fs) = postorderSpecFields fs := by
  cases fs with
  | nil => rfl
  | cons f rest =>
      rw [traverseFields, postorderSpecFields, leavesOf_append,
        leaves_traverseField f, leaves_traverseFields rest]

/-- Leave trace of one field value. -/
theorem leaves_traverseField (f : FieldValue) :
    leavesOf (traverseField f) = postorderSpecField f := by
  cases f with
  | child n => rw [traverseField, postorderSpecField, leaves_traverseAST n]
  | arr items => rw [traverseField, postorderSpecField, leaves_traverseItems items]
  | prim => rfl

/-- Leave trace of an array. -/
theorem leaves_traverseItems (items : ItemList) :
    leavesOf (traverseItems items) = postorderSpecItems items := by
  cases items with
  | nil => rfl
  | cons i rest =>
      rw [traverseItems, postorderSpecItems, leavesOf_append,
        leaves_traverseItem i, leaves_traverseItems rest]

/-- Leave trace of one array item. -/
theorem leaves_traverseItem (i : ArrayItem) :
    leavesOf (traverseItem i) = postorderSpecItem i := by
  cases i with
  | node n => rw [traverseItem, postorderSpecItem, leaves_traverseAST n]
  | nonNode => rfl
end

mutual
/-- The pre-order sequence has exactly one entry per AST node. -/
theorem length_preorderSpec (n : SyntaxNode) :
    (preorderSpec n).length = sizeSpec n := by
  rcases n with ⟨k, fs⟩
  rw [preorderSpec, sizeSpec, List.length_cons,
    length_preorderSpecFields fs, Nat.add_comm]

/-- Pre-order length of a field list. -/
theorem length_preorderSpecFields (fs : FieldList) :
    (preorderSpecFields fs).length = sizeSpecFields fs := by
  cases fs with
  | nil => rfl
  | cons f rest =>
      rw [preorderSpecFields, sizeSpecFields, List.length_append,
        length_preorderSpecField f, length_preorderSpecFields rest]

/-- Pre-order length of one field value. -/
theorem length_preorderSpecField (f : FieldValue) :
    (preorderSpecField f).length = sizeSpecField f := by
  cases f with
  | child n => rw [preorderSpecField, sizeSpecField, length_preorderSpec n]
  | arr items => rw [preorderSpecField, sizeSpecField, length_preorderSpecItems items]
  | prim => rfl

/-- Pre-order length of an array. -/
theorem length_preorderSpecItems (items : ItemList) :
    (preorderSpecItems items).length = sizeSpecItems items := by
  cases items with
  | nil => rfl
  | cons i rest =>
      rw [preorderSpecItems, sizeSpecItems, List.length_append,
        length_preorderSpecItem i, length_preorderSpecItems rest]

/-- Pre-order length of one array item. -/
theorem length_preorderSpecItem (i : ArrayItem) :
    (preorderSpecItem i).length = sizeSpecItem i := by
  cases i with
  | node n => rw [preorderSpecItem, sizeSpecItem, length_preorderSpec n]
  | nonNode => rfl
end

/-- The enter callback list equals the pre-order sequence. -/
theorem enterList_eq_preorderSpec (n : SyntaxNode) :
    enterList n = preorderSpec n :=
  enters_traverseAST n

/-- The leave callback list equals the post-order sequence. -/
theorem leaveList_eq_postorderSpec (n : SyntaxNode) :
    leaveList n = postorderSpec n :=
  leaves_traverseAST n

/-- C9: `traverseAST` fires `enter` on the root and then on every
child reachable through any field, in field order, depth-first —
pre-order for `enter`, post-order for `leave`; each node of the tree
is visited exactly once; a primitive field value or non-node array
item is skipped without recursion.  The walker is a total function,
so it never throws. -/
theorem traverseAST_contract :
    (∀ n : SyntaxNode, enterList n = preorderSpec n)
    ∧ (∀ n : SyntaxNode, leaveList n = postorderSpec n)
    ∧ (∀ n : SyntaxNode, (enterList n).length = sizeSpec n)
    ∧ (∀ fs : FieldList, traverseFields (.cons .prim fs) = traverseFields fs)
    ∧ (∀ items : ItemList,
        traverseItems (.cons .nonNode items) = traverseItems items) := by
  refine ⟨enterList_eq_preorderSpec, leaveList_eq_postorderSpec,
    fun n => ?_, fun fs => ?_, fun items => ?_⟩
  · rw [enterList_eq_preorderSpec, length_preorderSpec]
  · rw [traverseFields, traverseField, List.nil_append]
  · rw [traverseItems, traverseItem, List.nil_append]

/-! ## Method counting (C10) -/

/-- A concrete method `name() {}` as the parser produces it: a
`MethodDefinition` whose `key` is an identifier and whose `value` is a
`FunctionExpression` with empty parameter list and empty block body. -/
def methodDef (name : String) : SyntaxNode :=
  .mk .MethodDefinition
    (fieldsOf
      [.child (ident name),
       .child (.mk .FunctionExpression
         (fieldsOf
           [.arr .nil,
            .child (.mk (.other "BlockStatement") (fieldsOf [.arr .nil]))]))])

/-- A file consisting of exactly one class with `n` methods and no
other function-like constructs. -/
def classFile (n : ℕ) : SyntaxNode :=
  program [classDecl "C" none (List.replicate n (methodDef "m"))]

/-- Pre-order of the field-list builder. -/
theorem preorderSpecFields_fieldsOf (l : List FieldValue) :
    preorderSpecFields (fieldsOf l) = l.flatMap preorderSpecField := by
  induction l with
  | nil => rfl
  | cons f fs ih => rw [fieldsOf, preorderSpecFields, ih, List.flatMap_cons]

/-- Pre-order of an array of nodes. -/
theorem preorderSpecItems_map_node (ns : List SyntaxNode) :
    preorderSpecItems (itemsOf (ns.map .node)) = ns.flatMap preorderSpec := by
  induction ns with
  | nil => rfl
  | cons n rest ih =>
      rw [List.map_cons, itemsOf, preorderSpecItems, preorderSpecItem, ih,
        List.flatMap_cons]

/-- Pre-order of a `program` node. -/
theorem preorderSpec_program (stmts : List SyntaxNode) :
    preorderSpec (program stmts) =
      program stmts :: stmts.flatMap preorderSpec := by
  show program stmts :: preorderSpecFields (fieldsOf [.arr (itemsOf (stmts.map .node))])
      = _
  rw [preorderSpecFields_fieldsOf]
  simp [preorderSpecField, preorderSpecItems_map_node]

/-- Pre-order of a `classBody` node. -/
theorem preorderSpec_classBody (methods : List SyntaxNode) :
    preorderSpec (classBody methods) =
      classBody methods :: methods.flatMap preorderSpec := by
  show classBody methods
      :: preorderSpecFields (fieldsOf [.arr (itemsOf (methods.map .node))]) = _
  rw [preorderSpecFields_fieldsOf]
  simp [preorderSpecField, preorderSpecItems_map_node]

/-- Pre-order of a superclass-free class declaration. -/
theorem preorderSpec_classDecl_none (name : String) (methods : List SyntaxNode) :
    preorderSpec (classDecl name none methods) =
      classDecl name none methods :: ident name :: classBody methods
        :: methods.flatMap preorderSpec := by
  show classDecl name none methods
      :: preorderSpecFields (fieldsOf
        [.child (ident name), .prim, .child (classBody methods)]) = _
  rw [preorderSpecFields_fieldsOf]
  simp only [List.flatMap_cons, List.flatMap_nil, List.append_nil,
    preorderSpecField]
  rw [preorderSpec_classBody,
    show preorderSpec (ident name) = [ident name] from rfl]
  simp

/-- Counting over the flattened pre-orders of `n` copies. -/
theorem countP_flatMap_replicate (p : SyntaxNode → Bool) (m : SyntaxNode)
    (n : ℕ) :
    ((List.replicate n m).flatMap preorderSpec).countP p
      = n * (preorderSpec m).countP p := by
  induction n with
  | zero => simp
  | succ k ih =>
      rw [List.replicate_succ, List.flatMap_cons, List.countP_append, ih,
        Nat.succ_mul, Nat.add_comm]

/-- The function-structure analyzer counts 2 per method in a file of
one class with `n` methods (the `MethodDefinition` node and its
`FunctionExpression` value each count once). -/
theorem methodCount_classFile (n : ℕ) :
    analyzeFunctionStructure (classFile n) = 2 * n := by
  unfold analyzeFunctionStructure
  rw [foldl_count_eq_countP, Nat.zero_add, enterList_eq_preorderSpec]
  unfold classFile
  rw [preorderSpec_program, List.flatMap_cons, List.flatMap_nil,
    List.append_nil, preorderSpec_classDecl_none]
  rw [List.countP_cons, List.countP_cons, List.countP_cons, List.countP_cons,
    countP_flatMap_replicate]
  have h2 : (preorderSpec (methodDef "m")).countP isFunctionLike = 2 := by
    decide
  rw [h2]
  simp [isFunctionLike, program, classDecl, classBody, ident, SyntaxNode.kind,
    Nat.mul_comm]

/-- `calculateMetrics` on a successful parse, written out: the five
calculators combined into the record, with no diagnostics. -/
theorem calculateMetrics_ok (filePath : String) (ast : SyntaxNode) :
    calculateMetrics filePath (.ok ast) =
      (⟨countLogicalLinesOfCode ast, calculateCyclomaticComplexity ast,
        calculateMaintainabilityIndex (calculateHalsteadMetrics ast)
          (calculateCyclomaticComplexity ast) (countLogicalLinesOfCode ast),
        (analyzeClassStructure ast).2, (analyzeClassStructure ast).1,
        analyzeFunctionStructure ast,
        if analyzeFunctionStructure ast > 0 then
          (calculateCyclomaticComplexity ast : ℝ)
            / (analyzeFunctionStructure ast : ℝ)
        else 0⟩, []) :=
  rfl

/-- C10: each concrete method contributes exactly 2 to `methodCount`
(its `MethodDefinition` node and the `FunctionExpression` nested as
its value are each counted once), so a file of one class with `n`
methods yields `methodCount = 2·n`, and for `n > 0` the average
method complexity divides the file's cyclomatic complexity by the
doubled count. -/
theorem method_definitions_double_counted (n : ℕ) :
    (preorderSpec (methodDef "m")).countP isFunctionLike = 2
    ∧ ((calculateMetrics "f.ts" (.ok (classFile n))).1).methodCount = 2 * n
    ∧ (0 < n →
        ((calculateMetrics "f.ts" (.ok (classFile n))).1).averageMethodComplexity
          = (((calculateMetrics "f.ts"
                (.ok (classFile n))).1).cyclomaticComplexity : ℝ)
            / ((2 * n : ℕ) : ℝ)) := by
  refine ⟨by decide, ?_, fun hn => ?_⟩
  · simp only [calculateMetrics_ok]
    exact methodCount_classFile n
  · simp only [calculateMetrics_ok]
    rw [methodCount_classFile]
    rw [if_pos (by omega : 2 * n > 0)]

/-- Witness for C10 at `n = 1`: the single-method class file has
`methodCount = 2` and its average divides the complexity by 2. -/
theorem method_definitions_double_counted_witness :
    ((calculateMetrics "f.ts" (.ok (classFile 1))).1).methodCount = 2 * 1
    ∧ ((calculateMetrics "f.ts" (.ok (classFile 1))).1).averageMethodComplexity
        = (((calculateMetrics "f.ts"
              (.ok (classFile 1))).1).cyclomaticComplexity : ℝ)
          / ((2 * 1 : ℕ) : ℝ) :=
  ⟨(method_definitions_double_counted 1).2.1,
   (method_definitions_double_counted 1).2.2 (by decide)⟩
